import Mathlib

/-!
Verification of the ToyChain single-node ledger server (src/server.rs).

Shallow embedding conventions:
* Rust `f64` amounts are modelled as `ℚ` (the spec calls them real-valued
  quantities; the algorithms only add, subtract and compare them).
* `std::time::SystemTime::now()` is modelled by passing the current time
  explicitly as a `Nat` parameter to `process_request`.
* Machine words inside SHA-256 are `Nat` reduced mod `2 ^ 32` explicitly.
* `bincode::serialize` is modelled as a deterministic byte encoding of the
  block with the same field order and length-prefix structure; the 8-byte
  IEEE-754 rendering of an `f64` is modelled as a deterministic encoding of
  the rational and the `SystemTime` payload as an 8+4 byte seconds/nanos pair.
* The response `String`s built with `format!` are modelled by a structured
  `Response` value carrying the same information; the spec treats the
  outcome string as opaque apart from which branch produced it.
-/

/-- Transaction (src/server.rs lines 9-22): node id, optional sender,
receiver, amount and timestamp. -/
structure Transaction where
  node_id : String
  from_account_id : Option String
  to_account_id : String
  amount : ℚ
  datetime : Nat
deriving DecidableEq, Repr

/-- Transaction::new (src/server.rs lines 26-34), with the current time
passed explicitly. -/
def Transaction.new (node_id : String) (from_account_id : Option String)
    (to_account_id : String) (amount : ℚ) (now : Nat) : Transaction :=
  ⟨node_id, from_account_id, to_account_id, amount, now⟩

/-- Block (src/server.rs lines 38-46): transactions, previous hash, own hash. -/
structure Block where
  transactions : List Transaction
  previous_hash : String
  hash : String
deriving DecidableEq, Repr

/- ---------------------------------------------------------------------
SHA-256 (the sha2 crate's Sha256 used by Block::calc_and_set_hash),
over lists of bytes represented as `Nat` values below 256.
--------------------------------------------------------------------- -/

/-- Reduce a natural number to a 32-bit word. -/
def w32 (n : Nat) : Nat := n % 4294967296

/-- Right rotation of a 32-bit word by `n` places. -/
def rotr32 (x n : Nat) : Nat := (x % 2 ^ n) * 2 ^ (32 - n) + x / 2 ^ n

/-- Logical right shift of a 32-bit word. -/
def shr32 (x n : Nat) : Nat := x / 2 ^ n

/-- Three-way xor. -/
def xor3 (a b c : Nat) : Nat := Nat.xor (Nat.xor a b) c

/-- SHA-256 big sigma 0. -/
def bigSigma0 (x : Nat) : Nat := xor3 (rotr32 x 2) (rotr32 x 13) (rotr32 x 22)

/-- SHA-256 big sigma 1. -/
def bigSigma1 (x : Nat) : Nat := xor3 (rotr32 x 6) (rotr32 x 11) (rotr32 x 25)

/-- SHA-256 small sigma 0. -/
def smallSigma0 (x : Nat) : Nat := xor3 (rotr32 x 7) (rotr32 x 18) (shr32 x 3)

/-- SHA-256 small sigma 1. -/
def smallSigma1 (x : Nat) : Nat := xor3 (rotr32 x 17) (rotr32 x 19) (shr32 x 10)

/-- SHA-256 choose function. -/
def chFn (x y z : Nat) : Nat :=
  Nat.xor (Nat.land x y) (Nat.land (w32 (Nat.xor x 4294967295)) z)

/-- SHA-256 majority function. -/
def majFn (x y z : Nat) : Nat :=
  xor3 (Nat.land x y) (Nat.land x z) (Nat.land y z)

/-- The 64 SHA-256 round constants, written in decimal. -/
def sha256K : List Nat :=
  [1116352408, 1899447441, 3049323471, 3921009573,
   961987163, 1508970993, 2453635748, 2870763221,
   3624381080, 310598401, 607225278, 1426881987,
   1925078388, 2162078206, 2614888103, 3248222580,
   3835390401, 4022224774, 264347078, 604807628,
   770255983, 1249150122, 1555081692, 1996064986,
   2554220882, 2821834349, 2952996808, 3210313671,
   3336571891, 3584528711, 113926993, 338241895,
   666307205, 773529912, 1294757372, 1396182291,
   1695183700, 1986661051, 2177026350, 2456956037,
   2730485921, 2820302411, 3259730800, 3345764771,
   3516065817, 3600352804, 4094571909, 275423344,
   430227734, 506948616, 659060556, 883997877,
   958139571, 1322822218, 1537002063, 1747873779,
   1955562222, 2024104815, 2227730452, 2361852424,
   2428436474, 2756734187, 3204031479, 3329325298]

/-- The eight working variables of the SHA-256 compression function. -/
structure Hash8 where
  a : Nat
  b : Nat
  c : Nat
  d : Nat
  e : Nat
  f : Nat
  g : Nat
  h : Nat
deriving DecidableEq, Repr

/-- The SHA-256 initial hash value, written in decimal. -/
def sha256Init : Hash8 :=
  ⟨1779033703, 3144134277, 1013904242, 2773480762,
   1359893119, 2600822924, 528734635, 1541459225⟩

/-- One SHA-256 compression round, consuming a round constant paired with a
schedule word. -/
def compressStep (st : Hash8) (kw : Nat × Nat) : Hash8 :=
  let t1 := w32 (st.h + bigSigma1 st.e + chFn st.e st.f st.g + kw.1 + kw.2)
  let t2 := w32 (bigSigma0 st.a + majFn st.a st.b st.c)
  ⟨w32 (t1 + t2), st.a, st.b, st.c, w32 (st.d + t1), st.e, st.f, st.g⟩

/-- Extend a message schedule by `n` further words. -/
def extendSchedule : List Nat → Nat → List Nat
  | ws, 0 => ws
  | ws, n + 1 =>
      let t := w32 (smallSigma1 (ws.getD (ws.length - 2) 0)
        + ws.getD (ws.length - 7) 0
        + smallSigma0 (ws.getD (ws.length - 15) 0)
        + ws.getD (ws.length - 16) 0)
      extendSchedule (ws ++ [t]) n

/-- Group a byte list into big-endian 32-bit words (4 bytes per word). -/
def bytesToWords : List Nat → List Nat
  | b0 :: b1 :: b2 :: b3 :: rest =>
      (((b0 * 256 + b1) * 256 + b2) * 256 + b3) :: bytesToWords rest
  | _ => []

/-- Process one 64-byte chunk with the SHA-256 compression function. -/
def processChunk (st : Hash8) (chunk : List Nat) : Hash8 :=
  let ws := extendSchedule (bytesToWords chunk) 48
  let r := (sha256K.zip ws).foldl compressStep st
  ⟨w32 (st.a + r.a), w32 (st.b + r.b), w32 (st.c + r.c), w32 (st.d + r.d),
   w32 (st.e + r.e), w32 (st.f + r.f), w32 (st.g + r.g), w32 (st.h + r.h)⟩

/-- Big-endian 8-byte rendering of a length-in-bits counter. -/
def u64be (n : Nat) : List Nat :=
  [n / 2 ^ 56 % 256, n / 2 ^ 48 % 256, n / 2 ^ 40 % 256, n / 2 ^ 32 % 256,
   n / 2 ^ 24 % 256, n / 2 ^ 16 % 256, n / 2 ^ 8 % 256, n % 256]

/-- SHA-256 padding: a 0x80 byte, zeros to 56 mod 64, then the bit length. -/
def padMessage (msg : List Nat) : List Nat :=
  msg ++ [128] ++ List.replicate ((119 - msg.length % 64) % 64) 0
    ++ u64be (msg.length * 8)

/-- Split a byte list into successive 64-byte chunks. -/
def chunks64 (l : List Nat) : List (List Nat) :=
  if h : l = [] then []
  else l.take 64 :: chunks64 (l.drop 64)
termination_by l.length
decreasing_by
  simp only [List.length_drop]
  have : 0 < l.length := List.length_pos.mpr h
  omega

/-- The SHA-256 digest state of a byte message. -/
def sha256 (msg : List Nat) : Hash8 :=
  (chunks64 (padMessage msg)).foldl processChunk sha256Init

/-- Big-endian bytes of one 32-bit word. -/
def wordBytes (w : Nat) : List Nat :=
  [w / 2 ^ 24 % 256, w / 2 ^ 16 % 256, w / 2 ^ 8 % 256, w % 256]

/-- The 32 digest bytes of a SHA-256 state. -/
def digestBytes (st : Hash8) : List Nat :=
  wordBytes st.a ++ wordBytes st.b ++ wordBytes st.c ++ wordBytes st.d ++
  wordBytes st.e ++ wordBytes st.f ++ wordBytes st.g ++ wordBytes st.h

/-- One lowercase hexadecimal digit for a nibble. -/
def hexChar (n : Nat) : Char :=
  if n < 10 then Char.ofNat (48 + n) else Char.ofNat (87 + n)

/-- Two lowercase hexadecimal digits for one byte, as in the two-digit
lowercase hex formatting the source applies to each digest byte. -/
def byteHex (b : Nat) : List Char :=
  [hexChar (b / 16 % 16), hexChar (b % 16)]

/-- Lowercase hexadecimal rendering of a byte message's SHA-256 digest
(src/server.rs line 55: each digest byte rendered as two lowercase hex
digits). -/
def sha256hex (msg : List Nat) : String :=
  String.mk ((digestBytes (sha256 msg)).map byteHex).flatten

/- ---------------------------------------------------------------------
bincode serialization model (deterministic byte encoding of a Block).
--------------------------------------------------------------------- -/

/-- Little-endian 8-byte encoding of a u64 (bincode's length prefixes). -/
def u64le (n : Nat) : List Nat :=
  [n % 256, n / 2 ^ 8 % 256, n / 2 ^ 16 % 256, n / 2 ^ 24 % 256,
   n / 2 ^ 32 % 256, n / 2 ^ 40 % 256, n / 2 ^ 48 % 256, n / 2 ^ 56 % 256]

/-- Little-endian 4-byte encoding of a u32. -/
def u32le (n : Nat) : List Nat :=
  [n % 256, n / 2 ^ 8 % 256, n / 2 ^ 16 % 256, n / 2 ^ 24 % 256]

/-- Deterministic byte encoding of a string: u64 length prefix then the
code points of its characters (bincode writes byte length then UTF-8). -/
def stringBytes (s : String) : List Nat :=
  u64le s.length ++ s.data.map Char.toNat

/-- Deterministic byte encoding of a rational amount, standing in for the
8-byte IEEE-754 rendering of the f64 field. -/
def ratBytes (q : ℚ) : List Nat :=
  u64le (2 * q.num.natAbs + if q.num < 0 then 1 else 0) ++ u64le q.den

/-- Deterministic byte encoding of an optional sender id (bincode writes a
one-byte tag then the payload). -/
def optStringBytes : Option String → List Nat
  | none => [0]
  | some s => [1] ++ stringBytes s

/-- Deterministic byte encoding of one transaction, in field order:
node_id, from_account_id, to_account_id, amount, datetime (secs + nanos). -/
def transactionBytes (t : Transaction) : List Nat :=
  stringBytes t.node_id ++ optStringBytes t.from_account_id ++
  stringBytes t.to_account_id ++ ratBytes t.amount ++
  u64le t.datetime ++ u32le 0

/-- Deterministic byte encoding of a block, in field order: transactions
(with u64 count prefix), previous_hash, hash. -/
def blockBytes (b : Block) : List Nat :=
  u64le b.transactions.length ++ (b.transactions.map transactionBytes).flatten ++
  stringBytes b.previous_hash ++ stringBytes b.hash

/-- Block::calc_and_set_hash (src/server.rs lines 50-57): if the hash field
is empty, set it to the lowercase-hex SHA-256 of the block's serialization
(the hash field is still empty at that moment); otherwise do nothing. -/
def Block.calc_and_set_hash (b : Block) : Block :=
  if b.hash = "" then { b with hash := sha256hex (blockBytes b) } else b

/- ---------------------------------------------------------------------
Server state and operations.
--------------------------------------------------------------------- -/

/-- State (src/server.rs lines 61-64): the finalized ledger and the single
pending block, with the mutexes erased (all claims concern the serialized
interleavings the locks enforce). -/
structure State where
  ledger : List Block
  next_block_to_mint : Block
deriving DecidableEq, Repr

/-- Whether a transaction references an account as receiver or sender
(the predicate inside State::account_exists, src/server.rs line 71). -/
def txRefers (t : Transaction) (account_id : String) : Bool :=
  t.to_account_id == account_id ||
    (t.from_account_id.map (fun from_id => from_id == account_id)).getD false

/-- State::account_exists (src/server.rs lines 68-73): some finalized
transaction references the account. -/
def State.account_exists (s : State) (account_id : String) : Bool :=
  s.ledger.any (fun block => block.transactions.any (fun t => txRefers t account_id))

/-- One iteration of the balance loop body (src/server.rs lines 81-93):
subtract when the account is the sender, then add when it is the receiver. -/
def txApply (account_id : String) (balance : ℚ) (t : Transaction) : ℚ :=
  let balance :=
    match t.from_account_id with
    | some from_account_id =>
        if from_account_id = account_id then balance - t.amount else balance
    | none => balance
  if t.to_account_id = account_id then balance + t.amount else balance

/-- State::get_balance (src/server.rs lines 76-96): fold the balance loop
over every transaction of every finalized block, starting from 0. -/
def State.get_balance (s : State) (account_id : String) : ℚ :=
  s.ledger.foldl
    (fun balance block => block.transactions.foldl (txApply account_id) balance) 0

/-- Operation (src/common.rs lines 4-8). -/
inductive Operation where
  | CreateAccount (account_id : String) (starting_balance : ℚ)
  | TransferFunds (from_account_id to_account_id : String) (amount : ℚ)
  | GetFunds (account_id : String)
deriving DecidableEq, Repr

/-- Request (src/common.rs lines 29-32). -/
structure Request where
  from_node : String
  operation : Operation
deriving DecidableEq, Repr

/-- The outcome value of process_request, one constructor per return branch
of src/server.rs lines 190-225, carrying the data interpolated into the
corresponding format string. -/
inductive Response where
  | accountAlreadyExists (account_id : String)
  | accountCreated (account_id : String) (starting_balance : ℚ)
  | selfTransferRejected
  | insufficientFunds (from_account_id : String) (amount : ℚ)
  | transferCommitted (amount : ℚ) (from_account_id to_account_id : String)
  | balanceReport (account_id : String) (balance : ℚ)
deriving DecidableEq, Repr

/-- Whether a response is one of the rejection branches (the strings that
start with a warning or error marker rather than a success marker). -/
def Response.isFailure : Response → Bool
  | .accountAlreadyExists _ => true
  | .selfTransferRejected => true
  | .insufficientFunds _ _ => true
  | _ => false

/-- Append one transaction to the pending block of a state. -/
def State.pushPending (s : State) (t : Transaction) : State :=
  { s with next_block_to_mint :=
      { s.next_block_to_mint with
        transactions := s.next_block_to_mint.transactions ++ [t] } }

/-- process_request (src/server.rs lines 187-226), with the current time
passed explicitly; returns the response together with the updated state. -/
def process_request (s : State) (request : Request) (now : Nat) :
    Response × State :=
  match request.operation with
  | .CreateAccount account_id starting_balance =>
      if s.account_exists account_id then
        (.accountAlreadyExists account_id, s)
      else
        let transaction :=
          Transaction.new request.from_node none account_id starting_balance now
        (.accountCreated account_id starting_balance, s.pushPending transaction)
  | .TransferFunds from_account_id to_account_id amount =>
      if from_account_id = to_account_id then
        (.selfTransferRejected, s)
      else
        let balance := s.get_balance from_account_id
        if balance < amount then
          (.insufficientFunds from_account_id amount, s)
        else
          let transaction :=
            Transaction.new request.from_node (some from_account_id)
              to_account_id amount now
          (.transferCommitted amount from_account_id to_account_id,
           s.pushPending transaction)
  | .GetFunds account_id =>
      (.balanceReport account_id (s.get_balance account_id), s)

/-- One iteration of the mint loop body (src/server.rs lines 106-123, minus
sleeping and logging): skip when the pending block is empty; otherwise set
its hash, append it to the ledger, and reset the pending block to an empty
block chained to the just-minted hash. -/
def mint_step (s : State) : State :=
  if s.next_block_to_mint.transactions.isEmpty then s
  else
    let minted := s.next_block_to_mint.calc_and_set_hash
    { ledger := s.ledger ++ [minted],
      next_block_to_mint :=
        { transactions := [], previous_hash := minted.hash, hash := "" } }

/-- The state built by init_server (src/server.rs lines 141-148): empty
ledger and an empty pending block with empty previous_hash and hash. -/
def init_state : State :=
  { ledger := [],
    next_block_to_mint := { transactions := [], previous_hash := "", hash := "" } }

/-- One interleaving step: either the request thread processes one request
or the minting thread runs one mint iteration. -/
inductive Step : State → State → Prop
  | request (r : Request) (now : Nat) (s : State) :
      Step s (process_request s r now).2
  | mint (s : State) : Step s (mint_step s)

/-- States reachable from the initial state by request and mint steps. -/
inductive Reachable : State → Prop
  | init : Reachable init_state
  | step {s s' : State} : Reachable s → Step s s' → Reachable s'

/- ---------------------------------------------------------------------
Balance machinery.
--------------------------------------------------------------------- -/

/-- All transactions of a ledger, in block order. -/
def allTxs (l : List Block) : List Transaction :=
  (l.map Block.transactions).flatten

/-- The net contribution of one transaction to one account's balance. -/
def contrib (X : String) (t : Transaction) : ℚ :=
  (if t.to_account_id = X then t.amount else 0) -
  (if t.from_account_id = some X then t.amount else 0)

lemma txApply_eq (X : String) (b : ℚ) (t : Transaction) :
    txApply X b t = b + contrib X t := by
  rcases t with ⟨n, fr, toA, a, d⟩
  cases fr with
  | none =>
      by_cases hto : toA = X <;> simp [txApply, contrib, hto]
  | some f =>
      by_cases hf : f = X <;> by_cases hto : toA = X <;>
        simp [txApply, contrib, hf, hto] <;> ring

lemma foldl_txApply (X : String) (l : List Transaction) (b : ℚ) :
    l.foldl (txApply X) b = b + (l.map (contrib X)).sum := by
  induction l generalizing b with
  | nil => simp
  | cons t l ih => simp [ih, txApply_eq]; ring

lemma get_balance_eq (s : State) (X : String) :
    s.get_balance X = ((allTxs s.ledger).map (contrib X)).sum := by
  have H : ∀ (L : List Block) (b : ℚ),
      L.foldl (fun bal blk => blk.transactions.foldl (txApply X) bal) b
        = b + ((allTxs L).map (contrib X)).sum := by
    intro L
    induction L with
    | nil => intro b; simp [allTxs]
    | cons blk L ih =>
        intro b
        simp only [List.foldl_cons]
        rw [foldl_txApply, ih]
        have hsplit : allTxs (blk :: L) = blk.transactions ++ allTxs L := by
          simp [allTxs]
        rw [hsplit, List.map_append, List.sum_append]
        ring
  simpa [State.get_balance] using H s.ledger 0

lemma sum_map_sub (f g : Transaction → ℚ) (l : List Transaction) :
    (l.map (fun t => f t - g t)).sum = (l.map f).sum - (l.map g).sum := by
  induction l with
  | nil => simp
  | cons t l ih => simp [ih]; ring

lemma sum_filter_eq_sum_ite (p : Transaction → Bool) (f : Transaction → ℚ)
    (l : List Transaction) :
    ((l.filter p).map f).sum = (l.map (fun t => if p t then f t else 0)).sum := by
  induction l with
  | nil => simp
  | cons t l ih => by_cases h : p t <;> simp [List.filter_cons, h, ih]

lemma txRefers_false_iff (t : Transaction) (X : String) :
    txRefers t X = false ↔ t.to_account_id ≠ X ∧ t.from_account_id ≠ some X := by
  rcases t with ⟨n, fr, toA, a, d⟩
  cases fr <;> simp [txRefers]

lemma contrib_eq_zero_of_not_refers {t : Transaction} {X : String}
    (h : txRefers t X = false) : contrib X t = 0 := by
  rcases (txRefers_false_iff t X).mp h with ⟨h1, h2⟩
  simp [contrib, h1, h2]

/-- Modelled from the spec's words, for comparison with the source's
State.get_balance: the sum of the amounts of finalized transactions whose
receiver is X minus the sum of those whose sender is present and equal
to X. -/
def balance_spec (l : List Block) (X : String) : ℚ :=
  (((allTxs l).filter (fun t => t.to_account_id == X)).map Transaction.amount).sum -
  (((allTxs l).filter (fun t => t.from_account_id == some X)).map Transaction.amount).sum

/-- C1: get_balance equals the spec's credits-minus-debits sum over all
finalized transactions, and is 0 for an account referenced by no finalized
transaction. -/
theorem get_balance_correct (s : State) (X : String) :
    s.get_balance X = balance_spec s.ledger X ∧
    ((∀ t ∈ allTxs s.ledger, txRefers t X = false) → s.get_balance X = 0) := by
  constructor
  · rw [get_balance_eq, balance_spec,
      sum_filter_eq_sum_ite, sum_filter_eq_sum_ite, ← sum_map_sub]
    have : (fun t : Transaction =>
        (if t.to_account_id == X then t.amount else 0) -
        (if t.from_account_id == some X then t.amount else 0)) = contrib X := by
      funext t
      simp [contrib, beq_iff_eq]
    rw [this]
  · intro h
    rw [get_balance_eq]
    apply List.sum_eq_zero
    intro x hx
    rcases List.mem_map.mp hx with ⟨t, ht, rfl⟩
    exact contrib_eq_zero_of_not_refers (h t ht)

/-- Witness for C1 at the empty initial ledger and account "alice". -/
theorem get_balance_correct_witness :
    init_state.get_balance "alice" = balance_spec init_state.ledger "alice" ∧
    init_state.get_balance "alice" = 0 :=
  ⟨(get_balance_correct init_state "alice").1,
   (get_balance_correct init_state "alice").2 (by simp [allTxs, init_state])⟩

/- ---------------------------------------------------------------------
Frame lemmas for the two step kinds.
--------------------------------------------------------------------- -/

lemma calc_hash_transactions (b : Block) :
    b.calc_and_set_hash.transactions = b.transactions := by
  unfold Block.calc_and_set_hash
  split <;> rfl

lemma calc_hash_previous (b : Block) :
    b.calc_and_set_hash.previous_hash = b.previous_hash := by
  unfold Block.calc_and_set_hash
  split <;> rfl

lemma process_request_state (s : State) (r : Request) (now : Nat) :
    (process_request s r now).2 = s ∨
    ∃ t, (process_request s r now).2 = s.pushPending t := by
  rcases r with ⟨node, op⟩
  cases op with
  | CreateAccount id b =>
      by_cases h : s.account_exists id
      · left
        simp [process_request, h]
      · right
        refine ⟨Transaction.new node none id b now, ?_⟩
        simp [process_request, h]
  | TransferFunds f t a =>
      by_cases h1 : f = t
      · left
        simp [process_request, h1]
      · by_cases h2 : s.get_balance f < a
        · left
          simp [process_request, h1, h2]
        · right
          refine ⟨Transaction.new node (some f) t a now, ?_⟩
          simp [process_request, h1, h2]
  | GetFunds id =>
      left
      simp [process_request]

lemma pushPending_ledger (s : State) (t : Transaction) :
    (s.pushPending t).ledger = s.ledger := rfl

lemma pushPending_prev (s : State) (t : Transaction) :
    (s.pushPending t).next_block_to_mint.previous_hash =
    s.next_block_to_mint.previous_hash := rfl

/- ---------------------------------------------------------------------
Chain-integrity machinery (claim C2).
--------------------------------------------------------------------- -/

/-- The hash of the last block of a ledger, given a fallback for the empty
case. -/
def lastHashFrom (prev : String) (l : List Block) : String :=
  l.foldl (fun _ b => b.hash) prev

/-- The hash of the last finalized block, or the empty genesis marker. -/
def lastHash (l : List Block) : String := lastHashFrom "" l

lemma lastHashFrom_append (prev : String) (l : List Block) (b : Block) :
    lastHashFrom prev (l ++ [b]) = b.hash := by
  simp [lastHashFrom, List.foldl_append]

lemma lastHashFrom_cons (prev : String) (c : Block) (l : List Block) :
    lastHashFrom prev (c :: l) = lastHashFrom c.hash l := rfl

/-- The ledger is hash-linked starting from an expected previous hash. -/
def chainLinked : String → List Block → Prop
  | _, [] => True
  | prev, b :: rest => b.previous_hash = prev ∧ chainLinked b.hash rest

lemma chainLinked_nil (prev : String) : chainLinked prev [] ↔ True := Iff.rfl

lemma chainLinked_cons (prev : String) (b : Block) (l : List Block) :
    chainLinked prev (b :: l) ↔
      b.previous_hash = prev ∧ chainLinked b.hash l := Iff.rfl

lemma chainLinked_append (prev : String) (l : List Block) (b : Block) :
    chainLinked prev (l ++ [b]) ↔
      chainLinked prev l ∧ b.previous_hash = lastHashFrom prev l := by
  induction l generalizing prev with
  | nil => simp [chainLinked_nil, chainLinked_cons, lastHashFrom]
  | cons c l ih =>
      simp only [List.cons_append, chainLinked_cons, ih, lastHashFrom_cons]
      tauto

lemma chainLinked_head {prev : String} {l : List Block} (h : chainLinked prev l) :
    ∀ h0 : 0 < l.length, (l.get ⟨0, h0⟩).previous_hash = prev := by
  cases l with
  | nil => intro h0; simp at h0
  | cons b rest => intro _; exact h.1

lemma chainLinked_adjacent {prev : String} {l : List Block}
    (h : chainLinked prev l) :
    ∀ i (hi : i + 1 < l.length),
      (l.get ⟨i + 1, hi⟩).previous_hash =
      (l.get ⟨i, Nat.lt_of_succ_lt hi⟩).hash := by
  induction l generalizing prev with
  | nil => intro i hi; simp at hi
  | cons b rest ih =>
      intro i hi
      cases i with
      | zero =>
          have hr : 0 < rest.length := by
            simpa using Nat.lt_of_succ_lt_succ hi
          simpa using chainLinked_head h.2 hr
      | succ j =>
          have hj : j + 1 < rest.length := by
            simpa using Nat.lt_of_succ_lt_succ hi
          simpa using ih h.2 j hj

/-- The chain-integrity property of claim C2, stated as it is written:
adjacent finalized blocks are hash-linked, the first finalized block's
previous_hash is the genesis marker, and the pending block's previous_hash
is the hash of the last finalized block (or the genesis marker). -/
def chainOk (s : State) : Prop :=
  (∀ i (hi : i + 1 < s.ledger.length),
      (s.ledger.get ⟨i + 1, hi⟩).previous_hash =
      (s.ledger.get ⟨i, Nat.lt_of_succ_lt hi⟩).hash) ∧
  (∀ h0 : 0 < s.ledger.length, (s.ledger.get ⟨0, h0⟩).previous_hash = "") ∧
  s.next_block_to_mint.previous_hash = lastHash s.ledger

/-- The inductive form of the chain invariant. -/
def chainInv (s : State) : Prop :=
  chainLinked "" s.ledger ∧
  s.next_block_to_mint.previous_hash = lastHash s.ledger

lemma chainInv_init : chainInv init_state := by
  constructor
  · simp [init_state, chainLinked]
  · simp [init_state, lastHash, lastHashFrom]

lemma chainInv_step {s s' : State} (hs : chainInv s) (st : Step s s') :
    chainInv s' := by
  cases st with
  | request r now s =>
      rcases process_request_state s r now with h | ⟨t, h⟩
      · rw [h]; exact hs
      · rw [h]; exact hs
  | mint s =>
      by_cases he : s.next_block_to_mint.transactions.isEmpty
      · simpa [mint_step, he] using hs
      · unfold mint_step
        rw [if_neg he]
        constructor
        · rw [chainLinked_append]
          refine ⟨hs.1, ?_⟩
          rw [calc_hash_previous]
          exact hs.2
        · show _ = lastHash (s.ledger ++ [s.next_block_to_mint.calc_and_set_hash])
          rw [lastHash, lastHashFrom_append]

lemma chainInv_reachable {s : State} (h : Reachable s) : chainInv s := by
  induction h with
  | init => exact chainInv_init
  | step _ st ih => exact chainInv_step ih st

/-- C2: in every state reachable from the initial state by request and mint
steps, adjacent finalized blocks satisfy the previous-hash link, the first
finalized block's previous_hash is the empty string, and the pending
block's previous_hash equals the hash of the last finalized block (or the
empty string if there is none). -/
theorem chain_integrity (s : State) (h : Reachable s) : chainOk s := by
  have hinv := chainInv_reachable h
  exact ⟨chainLinked_adjacent hinv.1, chainLinked_head hinv.1, hinv.2⟩

/-- Witness for C2 at the initial state. -/
theorem chain_integrity_witness : Reachable init_state ∧ chainOk init_state :=
  ⟨Reachable.init, chain_integrity init_state Reachable.init⟩

/-- C6: a mint step on a state whose pending block has no transactions is a
no-op: the finalized ledger, the pending block's previous_hash and its
(empty) hash are all unchanged, and no error arises (the step is total and
returns the state itself). -/
theorem mint_empty_noop (s : State)
    (h : s.next_block_to_mint.transactions = []) : mint_step s = s := by
  simp [mint_step, h]

/-- Witness for C6 at the initial state. -/
theorem mint_empty_noop_witness :
    init_state.next_block_to_mint.transactions = [] ∧
    mint_step init_state = init_state :=
  ⟨rfl, mint_empty_noop init_state rfl⟩

/- ---------------------------------------------------------------------
Request-processor semantics (claims C3, C4, C5).
--------------------------------------------------------------------- -/

lemma txRefers_true_iff (t : Transaction) (X : String) :
    txRefers t X = true ↔
      (t.to_account_id = X ∨ t.from_account_id = some X) := by
  rcases t with ⟨n, fr, toA, a, d⟩
  cases fr <;> simp [txRefers]

lemma account_exists_iff (s : State) (id : String) :
    s.account_exists id = true ↔
      ∃ t ∈ allTxs s.ledger,
        (t.to_account_id = id ∨ t.from_account_id = some id) := by
  simp only [State.account_exists, List.any_eq_true, txRefers_true_iff,
    allTxs, List.mem_flatten, List.mem_map]
  constructor
  · rintro ⟨blk, hblk, t, ht, hP⟩
    exact ⟨t, ⟨blk.transactions, ⟨blk, hblk, rfl⟩, ht⟩, hP⟩
  · rintro ⟨t, ⟨l, ⟨blk, hblk, rfl⟩, ht⟩, hP⟩
    exact ⟨blk, hblk, t, ht, hP⟩

/-- C3: processing TransferFunds(from, to, amount) rejects a self-transfer
with no mutation (this check coming first), rejects an insufficient balance
with no mutation, and otherwise appends exactly one transaction with
sender Some(from), receiver to and the given amount to the pending block,
leaving the finalized ledger unchanged. -/
theorem transfer_funds_semantics (s : State) (node : String) (now : Nat)
    (f t : String) (a : ℚ) :
    (f = t →
      process_request s ⟨node, .TransferFunds f t a⟩ now =
        (.selfTransferRejected, s) ∧
      Response.selfTransferRejected.isFailure = true) ∧
    (f ≠ t → s.get_balance f < a →
      process_request s ⟨node, .TransferFunds f t a⟩ now =
        (.insufficientFunds f a, s) ∧
      (Response.insufficientFunds f a).isFailure = true) ∧
    (f ≠ t → ¬ s.get_balance f < a →
      process_request s ⟨node, .TransferFunds f t a⟩ now =
        (.transferCommitted a f t,
         s.pushPending (Transaction.new node (some f) t a now)) ∧
      (s.pushPending (Transaction.new node (some f) t a now)).ledger =
        s.ledger) := by
  refine ⟨fun h1 => ?_, fun h1 h2 => ?_, fun h1 h2 => ?_⟩
  · exact ⟨by simp [process_request, h1], rfl⟩
  · exact ⟨by simp [process_request, h1, h2], rfl⟩
  · exact ⟨by simp [process_request, h1, h2], rfl⟩

/-- Witness for C3: from the initial state, a self-transfer is rejected, a
transfer of 1 from the empty account "a" is rejected for insufficient
funds, and a transfer of 0 from "a" to "b" is committed. -/
theorem transfer_funds_semantics_witness :
    (process_request init_state ⟨"n", .TransferFunds "a" "a" 1⟩ 0 =
        (.selfTransferRejected, init_state) ∧
      Response.selfTransferRejected.isFailure = true) ∧
    (process_request init_state ⟨"n", .TransferFunds "a" "b" 1⟩ 0 =
        (.insufficientFunds "a" 1, init_state) ∧
      (Response.insufficientFunds "a" 1).isFailure = true) ∧
    (process_request init_state ⟨"n", .TransferFunds "a" "b" 0⟩ 0 =
        (.transferCommitted 0 "a" "b",
         init_state.pushPending (Transaction.new "n" (some "a") "b" 0 0)) ∧
      (init_state.pushPending (Transaction.new "n" (some "a") "b" 0 0)).ledger =
        init_state.ledger) :=
  ⟨(transfer_funds_semantics init_state "n" 0 "a" "a" 1).1 rfl,
   (transfer_funds_semantics init_state "n" 0 "a" "b" 1).2.1 (by decide)
     (by decide),
   (transfer_funds_semantics init_state "n" 0 "a" "b" 0).2.2 (by decide)
     (by decide)⟩

/-- C4: processing CreateAccount(account_id, starting_balance) rejects with
an already-exists outcome and no mutation when some finalized transaction
references account_id as sender or receiver (which is exactly what
account_exists tests), and otherwise appends exactly one transaction with
no sender, receiver account_id and amount starting_balance to the pending
block; the starting balance is unconstrained in sign (`b` ranges over all
rationals). -/
theorem create_account_semantics (s : State) (node : String) (now : Nat)
    (id : String) (b : ℚ) :
    (s.account_exists id = true ↔
      ∃ t ∈ allTxs s.ledger,
        (t.to_account_id = id ∨ t.from_account_id = some id)) ∧
    (s.account_exists id = true →
      process_request s ⟨node, .CreateAccount id b⟩ now =
        (.accountAlreadyExists id, s) ∧
      (Response.accountAlreadyExists id).isFailure = true) ∧
    (s.account_exists id = false →
      process_request s ⟨node, .CreateAccount id b⟩ now =
        (.accountCreated id b,
         s.pushPending (Transaction.new node none id b now)) ∧
      (s.pushPending (Transaction.new node none id b now)).ledger =
        s.ledger) := by
  refine ⟨account_exists_iff s id, fun h => ?_, fun h => ?_⟩
  · exact ⟨by simp [process_request, h], rfl⟩
  · exact ⟨by simp [process_request, h], rfl⟩

/-- Witness for C4: an account referenced by a finalized transaction is
rejected as already existing, and a fresh account is created from the
initial state. -/
theorem create_account_semantics_witness :
    (process_request
        ⟨[⟨[⟨"n", none, "x", 5, 0⟩], "", "h"⟩], ⟨[], "h", ""⟩⟩
        ⟨"n", .CreateAccount "x" 1⟩ 0 =
      (.accountAlreadyExists "x",
       ⟨[⟨[⟨"n", none, "x", 5, 0⟩], "", "h"⟩], ⟨[], "h", ""⟩⟩) ∧
      (Response.accountAlreadyExists "x").isFailure = true) ∧
    (process_request init_state ⟨"n", .CreateAccount "x" 1⟩ 0 =
      (.accountCreated "x" 1,
       init_state.pushPending (Transaction.new "n" none "x" 1 0)) ∧
      (init_state.pushPending (Transaction.new "n" none "x" 1 0)).ledger =
        init_state.ledger) :=
  ⟨(create_account_semantics
      ⟨[⟨[⟨"n", none, "x", 5, 0⟩], "", "h"⟩], ⟨[], "h", ""⟩⟩
      "n" 0 "x" 1).2.1 (by decide),
   (create_account_semantics init_state "n" 0 "x" 1).2.2 (by decide)⟩

lemma get_balance_mint (s : State) (X : String) :
    (mint_step s).get_balance X =
      ((allTxs s.ledger ++ s.next_block_to_mint.transactions).map
        (contrib X)).sum := by
  by_cases he : s.next_block_to_mint.transactions.isEmpty
  · have h0 : s.next_block_to_mint.transactions = [] := by
      simpa [List.isEmpty_iff] using he
    simp [mint_step, he, get_balance_eq, h0]
  · rw [mint_step, if_neg he, get_balance_eq]
    simp [allTxs, calc_hash_transactions]

/-- C5: get_balance reads only the finalized ledger (two states with the
same ledger give every account the same balance); concretely, after
CreateAccount("alice", 100) from the initial state the balance of "alice"
is still 0 before a mint and 100 after one mint step. -/
theorem pending_invisible_to_balance (s1 s2 : State) (X node : String)
    (now : Nat) (hl : s1.ledger = s2.ledger) :
    s1.get_balance X = s2.get_balance X ∧
    (process_request init_state
        ⟨node, .CreateAccount "alice" 100⟩ now).2.get_balance "alice" = 0 ∧
    (mint_step (process_request init_state
        ⟨node, .CreateAccount "alice" 100⟩ now).2).get_balance "alice" = 100 := by
  have hex : init_state.account_exists "alice" = false := rfl
  have hp : (process_request init_state ⟨node, .CreateAccount "alice" 100⟩ now).2
      = init_state.pushPending (Transaction.new node none "alice" 100 now) := by
    simp [process_request, hex]
  refine ⟨by simp [State.get_balance, hl], ?_, ?_⟩
  · rw [hp, get_balance_eq]
    simp [allTxs, init_state, State.pushPending]
  · rw [hp, get_balance_mint]
    simp [allTxs, init_state, State.pushPending, contrib, Transaction.new]

/-- Witness for C5 with both states initial and the "alice" scenario run
with node "n" at time 0. -/
theorem pending_invisible_to_balance_witness :
    init_state.get_balance "alice" = init_state.get_balance "alice" ∧
    (process_request init_state
        ⟨"n", .CreateAccount "alice" 100⟩ 0).2.get_balance "alice" = 0 ∧
    (mint_step (process_request init_state
        ⟨"n", .CreateAccount "alice" 100⟩ 0).2).get_balance "alice" = 100 :=
  pending_invisible_to_balance init_state init_state "alice" "n" 0 rfl

/- ---------------------------------------------------------------------
Hash output shape (claim C7).
--------------------------------------------------------------------- -/

/-- The sixteen lowercase hexadecimal digits. -/
def hexDigits : List Char := "0123456789abcdef".data

lemma hexChar_mem : ∀ n, n < 16 → hexChar n ∈ hexDigits := by decide

lemma byteHex_mem {c : Char} {b : Nat} (h : c ∈ byteHex b) : c ∈ hexDigits := by
  simp only [byteHex, List.mem_cons, List.not_mem_nil, or_false] at h
  rcases h with rfl | rfl
  · exact hexChar_mem _ (Nat.mod_lt _ (by norm_num))
  · exact hexChar_mem _ (Nat.mod_lt _ (by norm_num))

lemma flatten_byteHex_length (bs : List Nat) :
    ((bs.map byteHex).flatten).length = 2 * bs.length := by
  induction bs with
  | nil => simp
  | cons b bs ih => simp [byteHex, ih]; omega

lemma flatten_byteHex_mem {bs : List Nat} {c : Char}
    (h : c ∈ (bs.map byteHex).flatten) : c ∈ hexDigits := by
  rcases List.mem_flatten.mp h with ⟨l, hl, hc⟩
  rcases List.mem_map.mp hl with ⟨b, _, rfl⟩
  exact byteHex_mem hc

lemma digestBytes_length (st : Hash8) : (digestBytes st).length = 32 := by
  simp [digestBytes, wordBytes]

lemma sha256hex_length (msg : List Nat) : (sha256hex msg).length = 64 := by
  show ((digestBytes (sha256 msg)).map byteHex).flatten.length = 64
  rw [flatten_byteHex_length, digestBytes_length]

lemma sha256hex_hex (msg : List Nat) :
    ∀ c ∈ (sha256hex msg).data, c ∈ hexDigits := by
  intro c hc
  exact flatten_byteHex_mem hc

/-- C7: calc_and_set_hash is deterministic on blocks with equal
transactions, equal previous_hash and empty hash field (it digests the
block's serialization with the hash field empty and renders it as a
fixed-length, 64-character lowercase hexadecimal string), and it is a
complete no-op on a block whose hash is already nonempty. -/
theorem hash_deterministic_set_once (b1 b2 b3 : Block)
    (ht : b1.transactions = b2.transactions)
    (hp : b1.previous_hash = b2.previous_hash)
    (h1 : b1.hash = "") (h2 : b2.hash = "") (h3 : b3.hash ≠ "") :
    b1.calc_and_set_hash.hash = b2.calc_and_set_hash.hash ∧
    b1.calc_and_set_hash.hash = sha256hex (blockBytes { b1 with hash := "" }) ∧
    b1.calc_and_set_hash.hash.length = 64 ∧
    (∀ c ∈ b1.calc_and_set_hash.hash.data, c ∈ hexDigits) ∧
    b3.calc_and_set_hash = b3 := by
  rcases b1 with ⟨t1, p1, s1⟩
  rcases b2 with ⟨t2, p2, s2⟩
  simp only at ht hp h1 h2
  subst ht hp h1 h2
  have hset : (Block.mk t1 p1 "").calc_and_set_hash =
      Block.mk t1 p1 (sha256hex (blockBytes (Block.mk t1 p1 ""))) := by
    simp [Block.calc_and_set_hash]
  refine ⟨rfl, ?_, ?_, ?_, ?_⟩
  · rw [hset]
  · rw [hset]
    exact sha256hex_length _
  · rw [hset]
    exact sha256hex_hex _
  · simp [Block.calc_and_set_hash, h3]

/-- Witness for C7 at two equal empty pending blocks and one already-hashed
block. -/
theorem hash_deterministic_set_once_witness :
    (Block.mk [] "p" "").calc_and_set_hash.hash =
      (Block.mk [] "p" "").calc_and_set_hash.hash ∧
    (Block.mk [] "p" "").calc_and_set_hash.hash =
      sha256hex (blockBytes { Block.mk [] "p" "" with hash := "" }) ∧
    (Block.mk [] "p" "").calc_and_set_hash.hash.length = 64 ∧
    (∀ c ∈ (Block.mk [] "p" "").calc_and_set_hash.hash.data, c ∈ hexDigits) ∧
    (Block.mk [] "" "q").calc_and_set_hash = Block.mk [] "" "q" :=
  hash_deterministic_set_once
    (Block.mk [] "p" "") (Block.mk [] "p" "") (Block.mk [] "" "q")
    rfl rfl rfl rfl (by decide)

/- ---------------------------------------------------------------------
Amount-sign analysis (claims C8, C9).
--------------------------------------------------------------------- -/

/-- Whether a request carries only nonnegative amounts. -/
def reqAmountsNonneg (r : Request) : Prop :=
  match r.operation with
  | .CreateAccount _ b => 0 ≤ b
  | .TransferFunds _ _ a => 0 ≤ a
  | .GetFunds _ => True

/-- Reachability when every processed request carries nonnegative amounts. -/
inductive ReachableNN : State → Prop
  | init : ReachableNN init_state
  | request {s : State} (r : Request) (now : Nat) :
      ReachableNN s → reqAmountsNonneg r →
      ReachableNN (process_request s r now).2
  | mint {s : State} : ReachableNN s → ReachableNN (mint_step s)

lemma mem_pushPending {s : State} {tx t : Transaction}
    (ht : t ∈ allTxs (s.pushPending tx).ledger ++
      (s.pushPending tx).next_block_to_mint.transactions) :
    t ∈ allTxs s.ledger ++ s.next_block_to_mint.transactions ∨ t = tx := by
  simp only [State.pushPending] at ht
  rcases List.mem_append.mp ht with h | h
  · exact Or.inl (List.mem_append.mpr (Or.inl h))
  · rcases List.mem_append.mp h with h | h
    · exact Or.inl (List.mem_append.mpr (Or.inr h))
    · exact Or.inr (List.mem_singleton.mp h)

lemma mem_mint {s : State} {t : Transaction}
    (ht : t ∈ allTxs (mint_step s).ledger ++
      (mint_step s).next_block_to_mint.transactions) :
    t ∈ allTxs s.ledger ++ s.next_block_to_mint.transactions := by
  by_cases he : s.next_block_to_mint.transactions.isEmpty
  · simpa [mint_step, he] using ht
  · rw [mint_step, if_neg he] at ht
    rcases List.mem_append.mp ht with h | h
    · have hall : allTxs (s.ledger ++ [s.next_block_to_mint.calc_and_set_hash])
          = allTxs s.ledger ++ s.next_block_to_mint.transactions := by
        simp [allTxs, calc_hash_transactions]
      rw [hall] at h
      exact h
    · simp at h

lemma nonneg_request_step (s : State) (r : Request) (now : Nat)
    (hnn : reqAmountsNonneg r)
    (ih : ∀ t ∈ allTxs s.ledger ++ s.next_block_to_mint.transactions,
      0 ≤ t.amount) :
    ∀ t ∈ allTxs (process_request s r now).2.ledger ++
      (process_request s r now).2.next_block_to_mint.transactions,
      0 ≤ t.amount := by
  rcases r with ⟨node, op⟩
  cases op with
  | CreateAccount id b =>
      by_cases hex : s.account_exists id
      · simpa [process_request, hex] using ih
      · have hp : (process_request s ⟨node, .CreateAccount id b⟩ now).2 =
            s.pushPending (Transaction.new node none id b now) := by
          simp [process_request, hex]
        rw [hp]
        intro t ht
        rcases mem_pushPending ht with h | rfl
        · exact ih t h
        · exact hnn
  | TransferFunds f t0 a =>
      by_cases h1 : f = t0
      · simpa [process_request, h1] using ih
      · by_cases h2 : s.get_balance f < a
        · simpa [process_request, h1, h2] using ih
        · have hp : (process_request s ⟨node, .TransferFunds f t0 a⟩ now).2 =
              s.pushPending (Transaction.new node (some f) t0 a now) := by
            simp [process_request, h1, h2]
          rw [hp]
          intro t ht
          rcases mem_pushPending ht with h | rfl
          · exact ih t h
          · exact hnn
  | GetFunds id => simpa [process_request] using ih

/-- Counterexample to C8 as stated: the single request
CreateAccount("a", -1) from the initial state is a legal step yet appends
a transaction with a negative amount to the pending block. -/
theorem amounts_nonneg_cex :
    Reachable (process_request init_state
      ⟨"n", .CreateAccount "a" (-1)⟩ 0).2 ∧
    ∃ t ∈ (process_request init_state
        ⟨"n", .CreateAccount "a" (-1)⟩ 0).2.next_block_to_mint.transactions,
      t.amount < 0 := by
  have hex : init_state.account_exists "a" = false := rfl
  have hp : (process_request init_state ⟨"n", .CreateAccount "a" (-1)⟩ 0).2 =
      init_state.pushPending (Transaction.new "n" none "a" (-1) 0) := by
    simp [process_request, hex]
  constructor
  · exact Reachable.step Reachable.init (Step.request _ _ _)
  · rw [hp]
    refine ⟨Transaction.new "n" none "a" (-1) 0, ?_, by norm_num [Transaction.new]⟩
    simp [State.pushPending, init_state]

/-- C8 (amended): when every processed request carries a nonnegative
amount (starting_balance for CreateAccount, amount for TransferFunds),
every transaction in the pending block and in every finalized block has a
nonnegative amount; unrestricted requests can violate this, as the
counterexample shows. -/
theorem amounts_nonneg_of_nonneg_requests (s : State) (h : ReachableNN s) :
    ∀ t ∈ allTxs s.ledger ++ s.next_block_to_mint.transactions,
      0 ≤ t.amount := by
  induction h with
  | init => intro t ht; simp [allTxs, init_state] at ht
  | @request s0 r now hr hnn ih => exact nonneg_request_step s0 r now hnn ih
  | @mint s0 hr ih => exact fun t ht => ih t (mem_mint ht)

/-- Witness for the amended C8 at the initial state. -/
theorem amounts_nonneg_of_nonneg_requests_witness :
    ReachableNN init_state ∧
    ∀ t ∈ allTxs init_state.ledger ++
      init_state.next_block_to_mint.transactions, 0 ≤ t.amount :=
  ⟨ReachableNN.init,
   amounts_nonneg_of_nonneg_requests init_state ReachableNN.init⟩

/-- The reachable state whose only finalized transaction created account
"a" with starting balance -10. -/
def negBalState : State :=
  mint_step (process_request init_state ⟨"n", .CreateAccount "a" (-10)⟩ 0).2

/-- Counterexample to C9 as stated: in the reachable state negBalState the
account "a" has finalized balance -10, so the transfer
TransferFunds("a", "b", -5) — distinct accounts, non-positive amount — is
rejected by the insufficiency check and nothing is appended. -/
theorem negative_transfer_cex :
    Reachable negBalState ∧
    "a" ≠ "b" ∧ ((-5 : ℚ) ≤ 0) ∧
    process_request negBalState ⟨"n", .TransferFunds "a" "b" (-5)⟩ 0 =
      (.insufficientFunds "a" (-5), negBalState) := by
  have hex : init_state.account_exists "a" = false := rfl
  have hp : (process_request init_state ⟨"n", .CreateAccount "a" (-10)⟩ 0).2 =
      init_state.pushPending (Transaction.new "n" none "a" (-10) 0) := by
    simp [process_request, hex]
  have hb : negBalState.get_balance "a" = -10 := by
    rw [negBalState, hp, get_balance_mint]
    simp [allTxs, init_state, State.pushPending, contrib, Transaction.new]
  refine ⟨?_, by decide, by norm_num, ?_⟩
  · exact Reachable.step
      (Reachable.step Reachable.init (Step.request _ _ _)) (Step.mint _)
  · have h1 : ¬ ("a" : String) = "b" := by decide
    have h2 : negBalState.get_balance "a" < -5 := by
      rw [hb]; norm_num
    simp [process_request, h1, h2]

/-- C9 (amended): a transfer of a non-positive amount between distinct
accounts is accepted and appended whenever the sender's finalized balance
is not below the (non-positive) amount — in particular whenever it is
nonnegative, e.g. 0 for an account in no finalized transaction — and
after the next mint the sender's balance is higher by -amount and the
receiver's lower by -amount than if the transfer had not been appended. -/
theorem negative_transfer_accepted (s : State) (node : String) (now : Nat)
    (f t : String) (a : ℚ) (hft : f ≠ t) (ha : a ≤ 0)
    (hbal : ¬ s.get_balance f < a) :
    process_request s ⟨node, .TransferFunds f t a⟩ now =
      (.transferCommitted a f t,
       s.pushPending (Transaction.new node (some f) t a now)) ∧
    (mint_step (s.pushPending
        (Transaction.new node (some f) t a now))).get_balance f =
      (mint_step s).get_balance f - a ∧
    (mint_step (s.pushPending
        (Transaction.new node (some f) t a now))).get_balance t =
      (mint_step s).get_balance t + a := by
  have hsplit : allTxs (s.pushPending
        (Transaction.new node (some f) t a now)).ledger ++
      (s.pushPending (Transaction.new node (some f) t a now)
        ).next_block_to_mint.transactions =
      (allTxs s.ledger ++ s.next_block_to_mint.transactions) ++
        [Transaction.new node (some f) t a now] := by
    simp [State.pushPending]
  refine ⟨by simp [process_request, hft, hbal], ?_, ?_⟩
  · rw [get_balance_mint, get_balance_mint, hsplit, List.map_append,
      List.sum_append]
    simp [contrib, Transaction.new, Ne.symm hft]
    ring
  · rw [get_balance_mint, get_balance_mint, hsplit, List.map_append,
      List.sum_append]
    simp [contrib, Transaction.new, hft]

/-- Witness for the amended C9: transferring -1 from the empty account "a"
to "b" from the initial state. -/
theorem negative_transfer_accepted_witness :
    process_request init_state ⟨"n", .TransferFunds "a" "b" (-1)⟩ 0 =
      (.transferCommitted (-1) "a" "b",
       init_state.pushPending (Transaction.new "n" (some "a") "b" (-1) 0)) ∧
    (mint_step (init_state.pushPending
        (Transaction.new "n" (some "a") "b" (-1) 0))).get_balance "a" =
      (mint_step init_state).get_balance "a" - (-1) ∧
    (mint_step (init_state.pushPending
        (Transaction.new "n" (some "a") "b" (-1) 0))).get_balance "b" =
      (mint_step init_state).get_balance "b" + (-1) :=
  negative_transfer_accepted init_state "n" 0 "a" "b" (-1) (by decide)
    (by norm_num) (by rw [show init_state.get_balance "a" = 0 from rfl]; norm_num)

/- ---------------------------------------------------------------------
Duplicate account creation within a minting interval (claim C10).
--------------------------------------------------------------------- -/

lemma account_exists_eq_false (s : State) (id : String) :
    s.account_exists id = false ↔
      ∀ t ∈ allTxs s.ledger, txRefers t id = false := by
  constructor
  · intro h t ht
    by_contra hc
    have htr : txRefers t id = true := by simpa using hc
    have : s.account_exists id = true :=
      (account_exists_iff s id).mpr ⟨t, ht, (txRefers_true_iff t id).mp htr⟩
    simp [h] at this
  · intro h
    by_contra hc
    have hex : s.account_exists id = true := by simpa using hc
    rcases (account_exists_iff s id).mp hex with ⟨t, ht, hp⟩
    have := (txRefers_false_iff t id).mp (h t ht)
    tauto

lemma allTxs_mint (s : State) :
    allTxs (mint_step s).ledger =
      allTxs s.ledger ++ s.next_block_to_mint.transactions := by
  by_cases he : s.next_block_to_mint.transactions.isEmpty
  · have h0 : s.next_block_to_mint.transactions = [] := by
      simpa [List.isEmpty_iff] using he
    simp [mint_step, he, h0]
  · rw [mint_step, if_neg he]
    simp [allTxs, calc_hash_transactions]

lemma filter_creation_nil {l : List Transaction} {id : String}
    (h : ∀ t ∈ l, txRefers t id = false) :
    l.filter (fun t =>
      t.from_account_id == none && t.to_account_id == id) = [] := by
  rw [List.filter_eq_nil_iff]
  intro t ht
  have hf := (txRefers_false_iff t id).mp (h t ht)
  simp [hf.1]

lemma sum_contrib_zero {l : List Transaction} {id : String}
    (h : ∀ t ∈ l, txRefers t id = false) :
    (l.map (contrib id)).sum = 0 := by
  apply List.sum_eq_zero
  intro x hx
  rcases List.mem_map.mp hx with ⟨t, ht, rfl⟩
  exact contrib_eq_zero_of_not_refers (h t ht)

/-- The state after one pending creation of "x" with balance 5, within the
first minting interval. -/
def dupS0 : State :=
  (process_request init_state ⟨"n", .CreateAccount "x" 5⟩ 0).2

/-- dupS0 after the first of the two creations of claim C10. -/
def dupS1 : State :=
  (process_request dupS0 ⟨"n", .CreateAccount "x" 1⟩ 0).2

/-- dupS1 after the second of the two creations of claim C10. -/
def dupS2 : State :=
  (process_request dupS1 ⟨"n", .CreateAccount "x" 2⟩ 0).2

/-- Counterexample to C10 as stated: dupS0 has no finalized transaction
referencing "x", yet a creation of "x" with balance 5 sits in the pending
block; CreateAccount("x", 1) and CreateAccount("x", 2) then both succeed,
and after the mint the balance of "x" is 5 + 1 + 2 = 8, not 1 + 2. -/
theorem duplicate_create_cex :
    allTxs dupS0.ledger = [] ∧
    (process_request dupS0 ⟨"n", .CreateAccount "x" 1⟩ 0).1 =
      .accountCreated "x" 1 ∧
    (process_request dupS1 ⟨"n", .CreateAccount "x" 2⟩ 0).1 =
      .accountCreated "x" 2 ∧
    (mint_step dupS2).get_balance "x" = 8 ∧
    ((8 : ℚ) ≠ 1 + 2) := by
  have hex0 : init_state.account_exists "x" = false := rfl
  have h0 : dupS0 = init_state.pushPending (Transaction.new "n" none "x" 5 0) := by
    simp [dupS0, process_request, hex0]
  have hex1 : dupS0.account_exists "x" = false := by
    rw [h0]; rfl
  have h1 : dupS1 = dupS0.pushPending (Transaction.new "n" none "x" 1 0) := by
    simp [dupS1, process_request, hex1]
  have hex2 : dupS1.account_exists "x" = false := by
    rw [h1, h0]; rfl
  have h2 : dupS2 = dupS1.pushPending (Transaction.new "n" none "x" 2 0) := by
    simp [dupS2, process_request, hex2]
  refine ⟨by rw [h0]; simp [allTxs, State.pushPending, init_state], ?_, ?_, ?_,
    by norm_num⟩
  · simp [process_request, hex1]
  · simp [process_request, hex2]
  · rw [get_balance_mint, h2, h1, h0]
    simp [allTxs, init_state, State.pushPending, contrib, Transaction.new]
    norm_num

/-- C10 (amended): when neither the finalized ledger nor the pending block
references account_id, two CreateAccount requests for it in the same
minting interval both succeed and each appends its creation transaction;
after the next mint the finalized ledger holds exactly two creation
transactions for account_id and its balance is b1 + b2; with a mint
between the two requests, the second is instead rejected as already
existing. (As stated the claim omits the pending-block condition, which
the counterexample shows is needed for the balance clause.) -/
theorem duplicate_create_same_interval (s : State) (n1 n2 : String)
    (t1 t2 : Nat) (id : String) (b1 b2 : ℚ)
    (hL : ∀ t ∈ allTxs s.ledger, txRefers t id = false)
    (hP : ∀ t ∈ s.next_block_to_mint.transactions, txRefers t id = false) :
    process_request s ⟨n1, .CreateAccount id b1⟩ t1 =
      (.accountCreated id b1,
       s.pushPending (Transaction.new n1 none id b1 t1)) ∧
    process_request (s.pushPending (Transaction.new n1 none id b1 t1))
        ⟨n2, .CreateAccount id b2⟩ t2 =
      (.accountCreated id b2,
       (s.pushPending (Transaction.new n1 none id b1 t1)).pushPending
         (Transaction.new n2 none id b2 t2)) ∧
    ((allTxs (mint_step ((s.pushPending (Transaction.new n1 none id b1 t1)
        ).pushPending (Transaction.new n2 none id b2 t2))).ledger).filter
      (fun t => t.from_account_id == none && t.to_account_id == id)).length
        = 2 ∧
    (mint_step ((s.pushPending (Transaction.new n1 none id b1 t1)
        ).pushPending (Transaction.new n2 none id b2 t2))).get_balance id
        = b1 + b2 ∧
    process_request (mint_step (s.pushPending (Transaction.new n1 none id b1 t1)))
        ⟨n2, .CreateAccount id b2⟩ t2 =
      (.accountAlreadyExists id,
       mint_step (s.pushPending (Transaction.new n1 none id b1 t1))) := by
  have hex : s.account_exists id = false := (account_exists_eq_false s id).mpr hL
  have hex1 : (s.pushPending (Transaction.new n1 none id b1 t1)
      ).account_exists id = false := hex
  have hmintex : (mint_step (s.pushPending (Transaction.new n1 none id b1 t1))
      ).account_exists id = true := by
    apply (account_exists_iff _ _).mpr
    refine ⟨Transaction.new n1 none id b1 t1, ?_, Or.inl rfl⟩
    rw [allTxs_mint]
    apply List.mem_append.mpr
    right
    simp [State.pushPending]
  refine ⟨by simp [process_request, hex], by simp [process_request, hex1],
    ?_, ?_, by simp [process_request, hmintex]⟩
  · rw [allTxs_mint]
    simp only [State.pushPending, List.append_assoc, List.filter_append]
    rw [filter_creation_nil hL, filter_creation_nil hP]
    simp [Transaction.new]
  · rw [get_balance_mint]
    simp only [State.pushPending, List.append_assoc, List.map_append,
      List.sum_append]
    rw [sum_contrib_zero hL, sum_contrib_zero hP]
    simp [contrib, Transaction.new]

/-- Witness for the amended C10 from the initial state, with creations of
"x" carrying balances 1 and 2. -/
theorem duplicate_create_same_interval_witness :
    process_request init_state ⟨"n", .CreateAccount "x" 1⟩ 0 =
      (.accountCreated "x" 1,
       init_state.pushPending (Transaction.new "n" none "x" 1 0)) ∧
    process_request (init_state.pushPending (Transaction.new "n" none "x" 1 0))
        ⟨"m", .CreateAccount "x" 2⟩ 1 =
      (.accountCreated "x" 2,
       (init_state.pushPending (Transaction.new "n" none "x" 1 0)).pushPending
         (Transaction.new "m" none "x" 2 1)) ∧
    ((allTxs (mint_step ((init_state.pushPending (Transaction.new "n" none "x" 1 0)
        ).pushPending (Transaction.new "m" none "x" 2 1))).ledger).filter
      (fun t => t.from_account_id == none && t.to_account_id == "x")).length
        = 2 ∧
    (mint_step ((init_state.pushPending (Transaction.new "n" none "x" 1 0)
        ).pushPending (Transaction.new "m" none "x" 2 1))).get_balance "x"
        = 1 + 2 ∧
    process_request
        (mint_step (init_state.pushPending (Transaction.new "n" none "x" 1 0)))
        ⟨"m", .CreateAccount "x" 2⟩ 1 =
      (.accountAlreadyExists "x",
       mint_step (init_state.pushPending (Transaction.new "n" none "x" 1 0))) :=
  duplicate_create_same_interval init_state "n" "m" 0 1 "x" 1 2
    (by simp [allTxs, init_state]) (by simp [init_state])
